import Mathlib

/-!
Verification of the kiz scripting-language core: a shallow embedding of the
numeric libraries (deps/bigint.hpp, deps/rational.hpp), of the VM instruction
handlers (src/vm/vm.cpp), and of the IR generator (src/ir_gen/ir_gen.cpp),
with theorems settling the specification claims about them.

Modelling conventions:
* `kiz::BigInt` is embedded twice: at the digit level (`BigInt`, little-endian
  decimal digits exactly as stored in the C++ `std::vector<uint8_t>`) where the
  digit algorithms themselves are under scrutiny, and by its mathematical value
  (`Int`) where a VM handler merely consumes integer values.
* `uint32_t` arithmetic is `Nat` with explicit wraparound at `2 ^ 32`; the
  `uint8_t` stored on `push_back` is the value modulo `256`.
* C++ functions that `assert(false)` or `throw` on some path return `Option`
  and yield `none` on that path.
* `while` loops are embedded as fuel-indexed structural recursions; the fuel
  chosen is an upper bound on the iteration count, so the embedded function
  agrees with the loop wherever the loop terminates.
-/

namespace KizSpec

/-! ## deps/bigint.hpp : digit-level BigInt -/

/-- Little-endian decimal digits (`digits_`, low digit first) and sign flag
(`is_negative_`), exactly as in `kiz::BigInt`.  Each list entry is the value
held by the stored `uint8_t`. -/
structure BigInt where
  digits : List Nat
  neg : Bool
  deriving DecidableEq

/-- `trim_leading_zeros`: drop high-order zeros (list tail) while more than one
digit remains; written as reverse/dropWhile, which removes the same zeros the
`while (size > 1 && back == 0) pop_back()` loop removes, restoring the single
zero digit when everything was zero. -/
def trimDigits (ds : List Nat) : List Nat :=
  let kept := (ds.reverse.dropWhile (fun d => d = 0)).reverse
  if kept.isEmpty then [0] else kept

/-- `trim_leading_zeros` on the full number: normalises the digit list and
clears the sign when the result is the single digit zero. -/
def BigInt.trim (x : BigInt) : BigInt :=
  let ds := trimDigits x.digits
  { digits := ds, neg := if ds = [0] then false else x.neg }

/-- Digit extraction `while (val > 0) push(val % 10); val /= 10` of the
`BigInt(size_t)` constructor, with the loop embedded on fuel (`val` iterations
amply suffice since `val / 10 < val`). -/
def natDigitsFuel : Nat → Nat → List Nat
  | 0, _ => []
  | _ + 1, 0 => []
  | fuel + 1, v => (v % 10) :: natDigitsFuel fuel (v / 10)

/-- `BigInt(size_t val)`: zero yields the single digit `[0]`, otherwise the
decimal digits low-first. -/
def bigOfNat (val : Nat) : BigInt :=
  if val = 0 then { digits := [0], neg := false }
  else { digits := natDigitsFuel val val, neg := false }

/-- `operator==`: the sign flags and the digit vectors agree (the size test of
the source is subsumed by list equality). -/
def BigInt.beq (x y : BigInt) : Bool :=
  x.neg = y.neg && x.digits = y.digits

/-- Most-significant-first lexicographic digit comparison used by `abs_less`
(both lists already reversed, equal lengths). -/
def lexLtRev : List Nat → List Nat → Bool
  | a :: as, b :: bs => if a ≠ b then a < b else lexLtRev as bs
  | _, _ => false

/-- `abs_less`: absolute-value comparison, by length and then digitwise from
the most significant digit. -/
def BigInt.absLess (x y : BigInt) : Bool :=
  if x.digits.length ≠ y.digits.length then x.digits.length < y.digits.length
  else lexLtRev x.digits.reverse y.digits.reverse

/-- `uint32_t` subtraction `x - y` with wraparound (the operands in the
subtraction loop are `uint32_t`). -/
def sub32 (x y : Nat) : Nat :=
  (x + 2 ^ 32 - y) % 2 ^ 32

/-- The digit loop of `BigInt::operator-` : for each minuend digit,
`a -= borrow` in `uint32_t` arithmetic, reset the borrow, compare `a < b`,
add 10 and set the borrow when the test fires, and push the low byte of
`a - b`.  The `uint32_t` wraparound of `a -= borrow` when `a = 0` is kept
exactly as the source computes it. -/
def subDigits : List Nat → List Nat → Nat → List Nat
  | [], _, _ => []
  | a :: rest, bs, borrow =>
    let b := bs.headD 0
    let a1 := sub32 a borrow
    let a2 := if a1 < b then a1 + 10 else a1
    let borrow2 := if a1 < b then 1 else 0
    let diff := sub32 a2 b
    (diff % 256) :: subDigits rest bs.tail borrow2

/-- `BigInt::operator-`: equal operands give zero, otherwise the absolutely
larger operand is the minuend (recording the sign), the digit loop runs, and
the result is trimmed. -/
def BigInt.sub (x y : BigInt) : BigInt :=
  if x.beq y then bigOfNat 0
  else
    let swap := x.absLess y
    let minuend := if swap then y else x
    let subtrahend := if swap then x else y
    BigInt.trim { digits := subDigits minuend.digits subtrahend.digits 0, neg := swap }

/-- Mathematical value of a digit list, `Σ digits[i] * 10 ^ i`. -/
def digitsVal : List Nat → Nat
  | [] => 0
  | d :: rest => d + 10 * digitsVal rest

/-- Mathematical value of an embedded `BigInt`. -/
def BigInt.value (x : BigInt) : Int :=
  (if x.neg then -1 else 1) * (digitsVal x.digits : Int)

/-! ## deps/rational.hpp : Rational over integer values

The `deps::Rational` layer manipulates `BigInt`s only through arithmetic,
comparison and `%`; it is embedded over mathematical integers (the value
semantics of `BigInt`; the digit-level defects of `bigint.hpp` are treated
separately at the digit level above). -/

/-- A `deps::Rational`: numerator and denominator fields. -/
structure Rational where
  num : Int
  den : Int
  deriving DecidableEq

/-- The Euclid loop of `Rational::gcd` (`while (y != 0) { temp = y; y = x % y;
x = temp; }`), on fuel.  Both arguments are the absolute values taken by the
source, so `%` is plain `Nat` remainder (every C++ convention agrees on
non-negative operands; `BigInt::operator%` itself is only declared in the
repository). -/
def gcdLoop : Nat → Nat → Nat → Nat
  | 0, x, _ => x
  | fuel + 1, x, y => if y = 0 then x else gcdLoop fuel y (x % y)

/-- `Rational::gcd(a, b)`: Euclid on the absolute values.  `y` strictly
decreases each iteration, so fuel `b.natAbs + 1` covers every run of the
source loop. -/
def ratGcd (a b : Int) : Nat :=
  gcdLoop (b.natAbs + 1) a.natAbs b.natAbs

/-- The sign-normalisation step of `Rational::reduce`: a negative denominator
moves the sign to the numerator. -/
def reduceSign (numerator denominator : Int) : Int × Int :=
  if denominator < 0 then (-numerator, -denominator) else (numerator, denominator)

/-- The division step of `Rational::reduce`: divide both components by their
gcd when it is nonzero (`/=` is C++ truncated division, `Int.tdiv`; the
divisions are exact). -/
def reduceDiv (n1 d1 : Int) : Int × Int :=
  let g : Int := (ratGcd n1 d1 : Nat)
  if g ≠ 0 then (n1.tdiv g, d1.tdiv g) else (n1, d1)

/-- `Rational::reduce`: zero denominator throws (`none`); then sign
normalisation, gcd division, and finally a zero numerator forces denominator
one. -/
def reduce (numerator denominator : Int) : Option Rational :=
  if denominator = 0 then none
  else
    let sn := reduceSign numerator denominator
    let dv := reduceDiv sn.1 sn.2
    some (if dv.1 = 0 then { num := dv.1, den := 1 } else { num := dv.1, den := dv.2 })

/-- The two-argument `Rational(numerator, denominator)` constructor: store and
immediately `reduce`. -/
def mkRational (n d : Int) : Option Rational :=
  reduce n d

/-- The one-argument `Rational(numerator)` constructor: denominator one, no
`reduce` call. -/
def ratOfInt (n : Int) : Rational :=
  { num := n, den := 1 }

/-- The default `Rational()` constructor: `0/1`. -/
def ratDefault : Rational :=
  { num := 0, den := 1 }

/-- `Rational::operator+`: `(a*d + c*b)/(b*d)` through the reducing
constructor. -/
def ratAdd (a b : Rational) : Option Rational :=
  mkRational (a.num * b.den + b.num * a.den) (a.den * b.den)

/-- `Rational::operator-`: `(a*d - c*b)/(b*d)` through the reducing
constructor. -/
def ratSub (a b : Rational) : Option Rational :=
  mkRational (a.num * b.den - b.num * a.den) (a.den * b.den)

/-- `Rational::operator*`: `(a*c)/(b*d)` through the reducing constructor. -/
def ratMul (a b : Rational) : Option Rational :=
  mkRational (a.num * b.num) (a.den * b.den)

/-- `Rational::operator/`: zero divisor throws (`none`), otherwise
`(a*d)/(b*c)` through the reducing constructor. -/
def ratDiv (a b : Rational) : Option Rational :=
  if b.num = 0 then none
  else mkRational (a.num * b.den) (a.den * b.num)

/-- `Rational::operator==`: cross multiplication. -/
def ratEqBool (a b : Rational) : Bool :=
  a.num * b.den = b.num * a.den

/-- The representation invariant stated by the specification: strictly
positive denominator, numerator and denominator coprime, and a zero numerator
forces denominator one. -/
def IsReduced (q : Rational) : Prop :=
  0 < q.den ∧ Nat.gcd q.num.natAbs q.den.natAbs = 1 ∧ (q.num = 0 → q.den = 1)

instance (q : Rational) : Decidable (IsReduced q) :=
  inferInstanceAs (Decidable (0 < q.den ∧ Nat.gcd q.num.natAbs q.den.natAbs = 1 ∧ (q.num = 0 → q.den = 1)))

/-- Modelled from the spec: `BigInt::operator%` is used by `Vm::exec_MOD` but
not defined anywhere under src/ (bigint.hpp defines only `+`, `-`, `*` and
comparisons); the spec lists `mod` among the Int operations without fixing a
sign convention, so the C++ builtin convention (remainder truncated toward
zero) is used. -/
def bigMod (a b : Int) : Int :=
  Int.tmod a b

/-! ## include/opcode.hpp and include/models.hpp : instructions and objects -/

/-- The `kiz::Opcode` enumeration (source list verbatim; the missing commas in
opcode.hpp are typographical). -/
inductive Opcode where
  | OP_ADD | OP_SUB | OP_MUL | OP_DIV
  | OP_MOD | OP_POW | OP_NEG
  | OP_EQ | OP_GT | OP_LT
  | OP_AND | OP_NOT | OP_OR
  | OP_IS | OP_IN
  | CALL | RET
  | GET_ATTR | SET_ATTR
  | LOAD_VAR | LOAD_CONST
  | SET_GLOBAL | SET_LOCAL | SET_NONLOCAL
  | JUMP | JUMP_IF_FALSE | THROW
  | MAKE_LIST | MAKE_TUPLE | MAKE_DICT
  | POP_TOP | SWAP | COPY_TOP
  deriving DecidableEq

/-- `kiz::Instruction`: opcode, operand list, start/end line numbers. -/
structure Instruction where
  opc : Opcode
  opnList : List Nat
  startLineno : Nat
  endLineno : Nat
  deriving DecidableEq

/-- `model::CodeObject`, restricted to the fields the embedded handlers read
(`code` and `names`; `consts` and `lineno_map` are not consulted by any
handler under scrutiny). -/
structure CodeObject where
  code : List Instruction
  names : List String
  deriving DecidableEq

/-- The heap-object variants of models.hpp that the embedded handlers
dispatch on.  `Int` payloads carry the mathematical value of the `BigInt`;
`model::CppFunction` (whose call invokes arbitrary host code) and the
`CodeObject`/`Module`/`Dictionary` variants play no role in the claims under
scrutiny and are omitted. -/
inductive Obj where
  | nil
  | bool (val : Bool)
  | int (val : Int)
  | rational (val : Rational)
  | str (val : String)
  | list (val : List Obj)
  | func (name : String) (argc : Nat) (code : CodeObject)

/-- `deps::HashMap<Object*>` observational model: string-keyed map as an
association list; `insert` updates an existing key in place and appends a
missing one, matching the bucket update of hashmap.hpp. -/
def hmInsert : List (String × Obj) → String → Obj → List (String × Obj)
  | [], k, v => [(k, v)]
  | (k0, v0) :: rest, k, v =>
    if k0 = k then (k0, v) :: rest else (k0, v0) :: hmInsert rest k v

/-- `deps::HashMap::find`, as key lookup in the association list. -/
def hmFind : List (String × Obj) → String → Option Obj
  | [], _ => none
  | (k0, v0) :: rest, k => if k0 = k then some v0 else hmFind rest k

/-! ## src/vm/vm.cpp : VM state and instruction handlers -/

/-- `kiz::CallFrame` (vm.hpp). -/
structure CallFrame where
  isWeekScope : Bool
  locals : List (String × Obj)
  pc : Nat
  returnToPc : Nat
  name : String
  codeObject : CodeObject
  names : List String

/-- The VM state touched by the embedded handlers: the operand stack (head is
the top of `op_stack_`), the call stack (head is `call_stack_.back()`), the
global `pc_`, the length of `code_list_` (used only for jump range checks),
and the single static attribute map `Object::attrs` — models.hpp declares
`attrs` as a `static` member of `Object`, so every object reached through an
`Object*` shares this one map (only `Module` and `Dictionary` shadow it with
instance members of their own). -/
structure VmState where
  opStack : List Obj
  callStack : List CallFrame
  pc : Nat
  codeListLen : Nat
  objectAttrs : List (String × Obj)

/-- `Vm::exec_ADD`: pop `b` then `a`; both must be `Int`
(`assert` otherwise — "仅支持Int类型运算"); push their sum. -/
def execADD (s : VmState) : Option VmState :=
  match s.opStack with
  | b :: a :: rest =>
    match a, b with
    | .int av, .int bv => some { s with opStack := .int (av + bv) :: rest }
    | _, _ => none
  | _ => none

/-- `Vm::exec_SUB`: pop `b` then `a`; both must be `Int`; push the
difference. -/
def execSUB (s : VmState) : Option VmState :=
  match s.opStack with
  | b :: a :: rest =>
    match a, b with
    | .int av, .int bv => some { s with opStack := .int (av - bv) :: rest }
    | _, _ => none
  | _ => none

/-- `Vm::exec_DIV`: pop `b` then `a`; both must be `Int`; a zero divisor is an
error; otherwise push the `Rational` built by `operator/(BigInt, BigInt)`,
i.e. the reducing two-argument constructor. -/
def execDIV (s : VmState) : Option VmState :=
  match s.opStack with
  | b :: a :: rest =>
    match a, b with
    | .int av, .int bv =>
      if bv = 0 then none
      else
        match mkRational av bv with
        | some r => some { s with opStack := .rational r :: rest }
        | none => none
    | _, _ => none
  | _ => none

/-- `Vm::exec_MOD`: pop `b` then `a`; both must be `Int`; a zero divisor is an
error; otherwise push `a % b` (`BigInt::operator%`, see `bigMod`). -/
def execMOD (s : VmState) : Option VmState :=
  match s.opStack with
  | b :: a :: rest =>
    match a, b with
    | .int av, .int bv =>
      if bv = 0 then none
      else some { s with opStack := .int (bigMod av bv) :: rest }
    | _, _ => none
  | _ => none

/-- `Vm::exec_JUMP_IF_FALSE`: pop the condition; `Nil` jumps, `Bool` jumps on
`false`, and any other value is an error ("条件必须是Nil或Bool"); a jump
target outside `code_list_` is an error. -/
def execJUMP_IF_FALSE (inst : Instruction) (s : VmState) : Option VmState :=
  match s.opStack, inst.opnList with
  | cond :: rest, target :: _ =>
    let popped := { s with opStack := rest }
    match cond with
    | .nil =>
      if target < s.codeListLen then some { popped with pc := target } else none
    | .bool b =>
      if b then some popped
      else if target < s.codeListLen then some { popped with pc := target } else none
    | _ => none
  | _, _ => none

/-- The parameter-binding loop of `Vm::exec_CALL`: for `i` in
`[0, required_argc)`, an index beyond `names` is an error, otherwise insert
`names[i] ↦ args[i]` into the fresh locals map.  The loop is embedded on the
remaining iteration count. -/
def buildLocals (names : List String) (args : List Obj) :
    Nat → Nat → List (String × Obj) → Option (List (String × Obj))
  | 0, _, acc => some acc
  | k + 1, i, acc =>
    match names[i]?, args[i]? with
    | some nm, some v => buildLocals names args k (i + 1) (hmInsert acc nm v)
    | _, _ => none

/-- `Vm::exec_CALL`: pop the callee, pop the argument object which must be a
`List`, and for a `Function` require the argument count to equal `argc`,
build the locals from the first `argc` entries of `code->names`, and push a
new frame with `pc = 0` and `return_to_pc = pc_`, setting the global `pc_` to
zero.  The `CppFunction` branch invokes host code and is outside this model;
any other callee is an error. -/
def execCALL (s : VmState) : Option VmState :=
  match s.opStack with
  | funcObj :: argsObj :: rest =>
    if s.callStack.isEmpty then none
    else
      match argsObj with
      | .list args =>
        match funcObj with
        | .func name argc code =>
          if args.length ≠ argc then none
          else
            match buildLocals code.names args argc 0 [] with
            | some locals =>
              some { s with
                opStack := rest
                callStack :=
                  { isWeekScope := false, locals := locals, pc := 0,
                    returnToPc := s.pc, name := name, codeObject := code,
                    names := code.names } :: s.callStack
                pc := 0 }
            | none => none
        | _ => none
      | _ => none
  | _ => none

/-- `Vm::exec_SET_ATTR`: pop the value, pop the object, resolve the attribute
name through the current frame's `names`, and store into `obj->attrs` — which
is the static `Object::attrs` map shared by every object, so the popped
object itself is not consulted by the store. -/
def execSET_ATTR (inst : Instruction) (s : VmState) : Option VmState :=
  match s.opStack, inst.opnList with
  | attrVal :: _obj :: rest, nameIdx :: _ =>
    match s.callStack with
    | [] => none
    | frame :: _ =>
      match frame.names[nameIdx]? with
      | some attrName =>
        some { s with opStack := rest,
                      objectAttrs := hmInsert s.objectAttrs attrName attrVal }
      | none => none
  | _, _ => none

/-- `Vm::exec_GET_ATTR`: pop the object, resolve the attribute name through
the current frame's `names`, and look it up in `obj->attrs` — again the
static `Object::attrs` map, so the popped object is not consulted; a missing
attribute is an error. -/
def execGET_ATTR (inst : Instruction) (s : VmState) : Option VmState :=
  match s.opStack, inst.opnList with
  | _obj :: rest, nameIdx :: _ =>
    match s.callStack with
    | [] => none
    | frame :: _ =>
      match frame.names[nameIdx]? with
      | some attrName =>
        match hmFind s.objectAttrs attrName with
        | some v => some { s with opStack := v :: rest }
        | none => none
      | none => none
  | _, _ => none

/-! ## include/ast.hpp and src/ir_gen/ir_gen.cpp : AST and IR generation

The AST is restricted to the node kinds involved in the generator paths under
scrutiny (number, string, identifier, binary, unary and call expressions;
variable-declaration, expression, if, while, return, break and continue
statements).  List, dict, member-access and lambda nodes touch none of the
claims and are omitted. -/

/-- Expression nodes with their `start_ln`/`end_ln` members. -/
inductive Expr where
  | numberE (value : String) (startLn endLn : Nat)
  | stringE (value : String) (startLn endLn : Nat)
  | identE (name : String) (startLn endLn : Nat)
  | binaryE (op : String) (left right : Expr) (startLn endLn : Nat)
  | unaryE (op : String) (operand : Expr) (startLn endLn : Nat)
  | callE (callee : Expr) (args : List Expr) (startLn endLn : Nat)

/-- `start_ln` of an expression node. -/
def Expr.startLn : Expr → Nat
  | .numberE _ s _ => s
  | .stringE _ s _ => s
  | .identE _ s _ => s
  | .binaryE _ _ _ s _ => s
  | .unaryE _ _ s _ => s
  | .callE _ _ s _ => s

/-- `end_ln` of an expression node. -/
def Expr.endLn : Expr → Nat
  | .numberE _ _ e => e
  | .stringE _ _ e => e
  | .identE _ _ e => e
  | .binaryE _ _ _ _ e => e
  | .unaryE _ _ _ e => e
  | .callE _ _ _ e => e

mutual
/-- Statement nodes (the `gen_block` cases of ir_gen.cpp). -/
inductive Stmt where
  | varDeclS (name : String) (expr : Expr) (startLn endLn : Nat)
  | exprS (expr : Expr) (startLn endLn : Nat)
  | ifS (cond : Expr) (thenBlock : BlockS) (elseBlock : Option BlockS) (startLn endLn : Nat)
  | whileS (cond : Expr) (body : BlockS) (startLn endLn : Nat)
  | returnS (expr : Option Expr) (startLn endLn : Nat)
  | breakS (startLn endLn : Nat)
  | continueS (startLn endLn : Nat)

/-- A `BlockStmt`: statement list plus its line span. -/
inductive BlockS where
  | mk (statements : List Stmt) (startLn endLn : Nat)
end

/-- The statement list of a block. -/
def BlockS.statements : BlockS → List Stmt
  | .mk ss _ _ => ss

/-- `end_ln` of a block. -/
def BlockS.endLn : BlockS → Nat
  | .mk _ _ e => e

/-- A constant-pool entry as created by `make_int_obj` / `make_string_obj` /
`new model::Nil()`; the entry records the kind and source text of the freshly
allocated object. -/
inductive IRConst where
  | intConst (text : String)
  | strConst (text : String)
  | nilConst
  deriving DecidableEq

/-- The mutable growers of `IRGenerator`: instruction list, name table,
constant pool, line-number map, and the loop `block_stack` (head is the
top). -/
structure GenState where
  currCodeList : List Instruction
  currNames : List String
  currConst : List IRConst
  currLinenoMap : List (Nat × Nat)
  blockStack : List Nat
  deriving DecidableEq

/-- Index of the first occurrence of a name (the `std::find` of
`get_or_add_name`). -/
def findName : List String → String → Option Nat
  | [], _ => none
  | n :: rest, s => if n = s then some 0 else (findName rest s).map (· + 1)

/-- `get_or_add_name`: return the index of an existing entry, else append. -/
def getOrAddName (names : List String) (s : String) : List String × Nat :=
  match findName names s with
  | some i => (names, i)
  | none => (names ++ [s], names.length)

/-- `get_or_add_const` as called by the generator: the `std::find` compares
`Object*` pointers, and every call site passes a freshly `new`-allocated
object, so the search never matches and the constant is always appended. -/
def getOrAddConstFresh (consts : List IRConst) (c : IRConst) : List IRConst × Nat :=
  (consts ++ [c], consts.length)

/-- Append one instruction to `curr_code_list`. -/
def emit (st : GenState) (inst : Instruction) : GenState :=
  { st with currCodeList := st.currCodeList ++ [inst] }

/-- `curr_lineno_map.emplace_back(curr_code_list.size() - 1, line)`. -/
def emitLineno (st : GenState) (line : Nat) : GenState :=
  { st with currLinenoMap := st.currLinenoMap ++ [(st.currCodeList.length - 1, line)] }

/-- `curr_code_list[idx].opn_list[0] = target` (the back-patch writes of
`gen_if` and `gen_while`; the index is in range by construction). -/
def patchTarget (code : List Instruction) (idx target : Nat) : List Instruction :=
  match code[idx]? with
  | some inst => code.set idx { inst with opnList := inst.opnList.set 0 target }
  | none => code

/-- The binary-operator table of `gen_expr` (unsupported operators
`assert`). -/
def binOpcode (op : String) : Option Opcode :=
  if op = "+" then some .OP_ADD
  else if op = "-" then some .OP_SUB
  else if op = "*" then some .OP_MUL
  else if op = "/" then some .OP_DIV
  else if op = "%" then some .OP_MOD
  else if op = "^" then some .OP_POW
  else if op = "==" then some .OP_EQ
  else if op = ">" then some .OP_GT
  else if op = "<" then some .OP_LT
  else if op = "&&" then some .OP_AND
  else if op = "||" then some .OP_OR
  else if op = "in" then some .OP_IN
  else none

/-- The unary-operator table of `gen_expr`. -/
def unaryOpcode (op : String) : Option Opcode :=
  if op = "-" then some .OP_NEG
  else if op = "!" then some .OP_NOT
  else none

/-- `gen_literal`: intern the freshly built constant object, emit
`LOAD_CONST`, and record the line-map entry. -/
def genLiteral (c : IRConst) (sl el : Nat) (st : GenState) : GenState :=
  let interned := getOrAddConstFresh st.currConst c
  let st1 := emit { st with currConst := interned.1 } ⟨.LOAD_CONST, [interned.2], sl, el⟩
  emitLineno st1 sl

mutual

/-- `IRGenerator::gen_expr` on the embedded node kinds; the `CallExpr` case
hands the node to `gen_fn_call`. -/
def genExpr : Expr → GenState → Option GenState
  | .numberE v sl el, st => some (genLiteral (.intConst v) sl el st)
  | .stringE v sl el, st => some (genLiteral (.strConst v) sl el st)
  | .identE nm sl el, st =>
    let interned := getOrAddName st.currNames nm
    let st1 := emit { st with currNames := interned.1 } ⟨.LOAD_VAR, [interned.2], sl, el⟩
    some (emitLineno st1 sl)
  | .binaryE op l r sl el, st => do
    let st1 ← genExpr l st
    let st2 ← genExpr r st1
    match binOpcode op with
    | some opc => some (emitLineno (emit st2 ⟨opc, [], sl, el⟩) sl)
    | none => none
  | .unaryE op e sl el, st => do
    let st1 ← genExpr e st
    match unaryOpcode op with
    | some opc => some (emitLineno (emit st1 ⟨opc, [], sl, el⟩) sl)
    | none => none
  | .callE callee args sl el, st => genFnCall (.callE callee args sl el) st
termination_by e _ => (sizeOf e, 1)

/-- `IRGenerator::gen_fn_call` on a `CallExpr` node: emit each argument in
order, emit the callee, then emit `CALL` whose single operand is the argument
count, and record the line-map entry.  (No `MAKE_LIST` is emitted.)  The
function is only reached with a call node (the source downcasts). -/
def genFnCall : Expr → GenState → Option GenState
  | .callE callee args sl el, st => do
    let st1 ← genExprList args st
    let st2 ← genExpr callee st1
    some (emitLineno (emit st2 ⟨.CALL, [args.length], sl, el⟩) sl)
  | _, _ => none
termination_by e _ => (sizeOf e, 0)

/-- The argument loop of `gen_fn_call` (source order). -/
def genExprList : List Expr → GenState → Option GenState
  | [], st => some st
  | e :: rest, st => do
    let st1 ← genExpr e st
    genExprList rest st1
termination_by l _ => (sizeOf l, 0)

end

mutual

/-- `IRGenerator::gen_block` (the statement loop).  The `ReturnStmt` case of
the source ends with the stray token `pbreak;`, read as the evident `break;`.
`BreakStmt` requires a non-empty `block_stack` and `ContinueStmt` requires at
least two entries; both emit `JUMP` to `block_stack.top()`. -/
def genStmts : List Stmt → GenState → Option GenState
  | [], st => some st
  | stmt :: rest, st => do
    let st1 ←
      match stmt with
      | .varDeclS nm e sl el => do
        let s1 ← genExpr e st
        let interned := getOrAddName s1.currNames nm
        some (emit { s1 with currNames := interned.1 } ⟨.SET_LOCAL, [interned.2], sl, el⟩)
      | .exprS e sl el => do
        let s1 ← genExpr e st
        some (emit s1 ⟨.POP_TOP, [], sl, el⟩)
      | .ifS cond t e sl el => genIf (.ifS cond t e sl el) st
      | .whileS cond body sl el => genWhile (.whileS cond body sl el) st
      | .returnS eo sl el => do
        let s1 ←
          match eo with
          | some e => genExpr e st
          | none =>
            let interned := getOrAddConstFresh st.currConst .nilConst
            some (emit { st with currConst := interned.1 } ⟨.LOAD_CONST, [interned.2], sl, el⟩)
        some (emit s1 ⟨.RET, [], sl, el⟩)
      | .breakS sl el =>
        match st.blockStack with
        | [] => none
        | top :: _ => some (emit st ⟨.JUMP, [top], sl, el⟩)
      | .continueS sl el =>
        match st.blockStack with
        | top :: _ :: _ => some (emit st ⟨.JUMP, [top], sl, el⟩)
        | _ => none
    genStmts rest st1
termination_by l _ => (sizeOf l, 1)

/-- `IRGenerator::gen_if` on an `IfStmt` node: condition, placeholder
`JUMP_IF_FALSE`, then-block, placeholder `JUMP`, back-patch the first to the
else start, optional else-block, back-patch the second to the end, record the
line-map entry. -/
def genIf : Stmt → GenState → Option GenState
  | .ifS cond thenBlock elseBlock _ el, st => do
    let st1 ← genExpr cond st
    let jumpIfFalseIdx := st1.currCodeList.length
    let st2 := emit st1 ⟨.JUMP_IF_FALSE, [0], cond.startLn, cond.endLn⟩
    let st3 ← genBlock thenBlock st2
    let jumpElseIdx := st3.currCodeList.length
    let st4 := emit st3 ⟨.JUMP, [0], thenBlock.endLn, thenBlock.endLn⟩
    let st5 := { st4 with currCodeList := patchTarget st4.currCodeList jumpIfFalseIdx st4.currCodeList.length }
    let st6 ←
      match elseBlock with
      | some b => genBlock b st5
      | none => some st5
    let st7 := { st6 with currCodeList := patchTarget st6.currCodeList jumpElseIdx st6.currCodeList.length }
    some (emitLineno st7 el)
  | _, _ => none
termination_by s _ => (sizeOf s, 0)

/-- `IRGenerator::gen_while` on a `WhileStmt` node: record the loop entry and
push it on `block_stack`, emit the condition and a placeholder
`JUMP_IF_FALSE`, push `loop_exit_idx` (the index right after the conditional
jump — the first body instruction) on `block_stack`, emit the body, emit
`JUMP loop_entry`, back-patch the conditional jump to the current end, pop
the two `block_stack` entries, and record the line-map entry. -/
def genWhile : Stmt → GenState → Option GenState
  | .whileS cond body _ el, st => do
    let loopEntryIdx := st.currCodeList.length
    let st0 := { st with blockStack := loopEntryIdx :: st.blockStack }
    let st1 ← genExpr cond st0
    let jumpOutIdx := st1.currCodeList.length
    let st2 := emit st1 ⟨.JUMP_IF_FALSE, [0], cond.startLn, cond.endLn⟩
    let loopExitIdx := st2.currCodeList.length
    let st3 := { st2 with blockStack := loopExitIdx :: st2.blockStack }
    let st4 ← genBlock body st3
    let st5 := emit st4 ⟨.JUMP, [loopEntryIdx], body.endLn, body.endLn⟩
    let st6 := { st5 with currCodeList := patchTarget st5.currCodeList jumpOutIdx st5.currCodeList.length }
    let st7 := { st6 with blockStack := st6.blockStack.tail.tail }
    some (emitLineno st7 el)
  | _, _ => none
termination_by s _ => (sizeOf s, 0)

/-- `gen_block` on a block node: generate its statements. -/
def genBlock : BlockS → GenState → Option GenState
  | .mk statements _ _, st => genStmts statements st
termination_by b _ => (sizeOf b, 0)

end

/-- The generator state at the start of a module (`gen` clears every
grower). -/
def initGenState : GenState :=
  { currCodeList := [], currNames := [], currConst := [],
    currLinenoMap := [], blockStack := [] }

/-! ## Helper lemmas -/

/-- The fueled Euclid loop computes `Nat.gcd` whenever the fuel exceeds the
second argument. -/
theorem gcdLoop_eq_gcd : ∀ (fuel x y : Nat), y < fuel → gcdLoop fuel x y = Nat.gcd x y := by
  intro fuel
  induction fuel with
  | zero => intro x y h; omega
  | succ f ih =>
    intro x y h
    rw [gcdLoop]
    by_cases hy : y = 0
    · simp [hy]
    · simp only [hy, if_false]
      rw [ih y (x % y) (Nat.lt_of_lt_of_le (Nat.mod_lt x (Nat.pos_of_ne_zero hy)) (Nat.lt_succ_iff.mp h))]
      rw [Nat.gcd_comm x y, Nat.gcd_rec y x]
      exact Nat.gcd_comm y (x % y)

/-- `Rational::gcd` computes the gcd of the absolute values. -/
theorem ratGcd_eq_gcd (a b : Int) : ratGcd a b = Nat.gcd a.natAbs b.natAbs := by
  unfold ratGcd
  exact gcdLoop_eq_gcd _ _ _ (Nat.lt_succ_self _)

/-- `reduce` on a zero denominator fails. -/
theorem reduce_den_zero (n : Int) : reduce n 0 = none := by
  simp [reduce]

/-- Sign normalisation keeps the denoted fraction: cross multiplication with
the original pair. -/
theorem reduceSign_cross (n d : Int) :
    (reduceSign n d).1 * d = n * (reduceSign n d).2 := by
  unfold reduceSign
  by_cases h : d < 0
  · rw [if_pos h]; ring
  · rw [if_neg h]

/-- Sign normalisation of a nonzero denominator yields a positive one. -/
theorem reduceSign_pos (n d : Int) (hd : d ≠ 0) : 0 < (reduceSign n d).2 := by
  unfold reduceSign
  by_cases h : d < 0
  · rw [if_pos h]; omega
  · rw [if_neg h]; omega

/-- A zero numerator after sign normalisation means the original numerator
was zero. -/
theorem reduceSign_num_zero (n d : Int) (h : (reduceSign n d).1 = 0) : n = 0 := by
  unfold reduceSign at h
  by_cases hc : d < 0
  · rw [if_pos hc] at h; omega
  · rw [if_neg hc] at h; exact h

/-- The division step of `reduce`, on a positive denominator: the denominator
stays positive, the components become coprime, the denoted fraction is kept,
and a zero numerator can only come from a zero numerator. -/
theorem reduceDiv_spec (n1 d1 : Int) (hd1 : 0 < d1) :
    0 < (reduceDiv n1 d1).2 ∧
    Nat.gcd (reduceDiv n1 d1).1.natAbs (reduceDiv n1 d1).2.natAbs = 1 ∧
    (reduceDiv n1 d1).1 * d1 = n1 * (reduceDiv n1 d1).2 ∧
    ((reduceDiv n1 d1).1 = 0 → n1 = 0) := by
  have hgcd : ratGcd n1 d1 = Nat.gcd n1.natAbs d1.natAbs := ratGcd_eq_gcd n1 d1
  have hd1abs : d1.natAbs ≠ 0 := Int.natAbs_ne_zero.mpr (ne_of_gt hd1)
  have hgpos : 0 < ratGcd n1 d1 := by
    rw [hgcd]
    exact Nat.gcd_pos_of_pos_right _ (Nat.pos_of_ne_zero hd1abs)
  have hgne : (ratGcd n1 d1 : Int) ≠ 0 := by exact_mod_cast Nat.pos_iff_ne_zero.mp hgpos
  have hdvd_n : ((ratGcd n1 d1 : Nat) : Int) ∣ n1 := by
    rw [hgcd]
    exact Int.dvd_natAbs.mp (Int.natCast_dvd_natCast.mpr (Nat.gcd_dvd_left _ _))
  have hdvd_d : ((ratGcd n1 d1 : Nat) : Int) ∣ d1 := by
    rw [hgcd]
    exact Int.dvd_natAbs.mp (Int.natCast_dvd_natCast.mpr (Nat.gcd_dvd_right _ _))
  have hred : reduceDiv n1 d1 = (n1.tdiv (ratGcd n1 d1 : Nat), d1.tdiv (ratGcd n1 d1 : Nat)) := by
    unfold reduceDiv
    simp only [ne_eq, hgne, not_false_iff, if_true]
  rw [hred]
  have hn2g : n1.tdiv (ratGcd n1 d1 : Nat) * (ratGcd n1 d1 : Nat) = n1 :=
    Int.tdiv_mul_cancel hdvd_n
  have hd2g : d1.tdiv (ratGcd n1 d1 : Nat) * (ratGcd n1 d1 : Nat) = d1 :=
    Int.tdiv_mul_cancel hdvd_d
  have hgposInt : (0 : Int) < (ratGcd n1 d1 : Nat) := by exact_mod_cast hgpos
  have hd2pos : 0 < d1.tdiv (ratGcd n1 d1 : Nat) := by
    by_contra hle
    push_neg at hle
    have : d1.tdiv (ratGcd n1 d1 : Nat) * (ratGcd n1 d1 : Nat) ≤ 0 :=
      mul_nonpos_of_nonpos_of_nonneg hle (le_of_lt hgposInt)
    omega
  refine ⟨hd2pos, ?_, ?_, ?_⟩
  · have habs_n : (n1.tdiv (ratGcd n1 d1 : Nat)).natAbs = n1.natAbs / ratGcd n1 d1 := by
      rw [Int.natAbs_tdiv]
      simp only [Int.natAbs_ofNat]
      rfl
    have habs_d : (d1.tdiv (ratGcd n1 d1 : Nat)).natAbs = d1.natAbs / ratGcd n1 d1 := by
      rw [Int.natAbs_tdiv]
      simp only [Int.natAbs_ofNat]
      rfl
    rw [habs_n, habs_d, hgcd]
    exact Nat.coprime_div_gcd_div_gcd (hgcd ▸ hgpos)
  · have h1 : n1.tdiv (ratGcd n1 d1 : Nat) * d1 * (ratGcd n1 d1 : Nat) =
        n1 * d1.tdiv (ratGcd n1 d1 : Nat) * (ratGcd n1 d1 : Nat) := by
      calc n1.tdiv (ratGcd n1 d1 : Nat) * d1 * (ratGcd n1 d1 : Nat)
          = n1.tdiv (ratGcd n1 d1 : Nat) * (ratGcd n1 d1 : Nat) * d1 := by ring
        _ = n1 * d1 := by rw [hn2g]
        _ = n1 * (d1.tdiv (ratGcd n1 d1 : Nat) * (ratGcd n1 d1 : Nat)) := by rw [hd2g]
        _ = n1 * d1.tdiv (ratGcd n1 d1 : Nat) * (ratGcd n1 d1 : Nat) := by ring
    exact mul_right_cancel₀ hgne h1
  · intro hz
    have hz2 : n1.tdiv (ratGcd n1 d1 : Nat) = 0 := hz
    have := hn2g
    rw [hz2, zero_mul] at this
    omega

/-- Adequacy of `Rational::reduce`: on a nonzero denominator it succeeds, the
result satisfies the representation invariant, and the result denotes the
input fraction (cross multiplication). -/
theorem reduce_spec (n d : Int) (hd : d ≠ 0) :
    ∃ r, reduce n d = some r ∧ IsReduced r ∧ r.num * d = n * r.den := by
  have hred : reduce n d =
      some (if (reduceDiv (reduceSign n d).1 (reduceSign n d).2).1 = 0 then
              { num := (reduceDiv (reduceSign n d).1 (reduceSign n d).2).1, den := 1 }
            else
              { num := (reduceDiv (reduceSign n d).1 (reduceSign n d).2).1,
                den := (reduceDiv (reduceSign n d).1 (reduceSign n d).2).2 }) := by
    rw [reduce, if_neg hd]
  have hpos := reduceSign_pos n d hd
  obtain ⟨hdpos, hcop, hcross, hzero⟩ := reduceDiv_spec (reduceSign n d).1 (reduceSign n d).2 hpos
  have hcrossd : (reduceDiv (reduceSign n d).1 (reduceSign n d).2).1 * d =
      n * (reduceDiv (reduceSign n d).1 (reduceSign n d).2).2 := by
    have hg : (reduceSign n d).2 ≠ 0 := ne_of_gt hpos
    have h1 : (reduceDiv (reduceSign n d).1 (reduceSign n d).2).1 * d * (reduceSign n d).2 =
        n * (reduceDiv (reduceSign n d).1 (reduceSign n d).2).2 * (reduceSign n d).2 := by
      calc (reduceDiv (reduceSign n d).1 (reduceSign n d).2).1 * d * (reduceSign n d).2
          = ((reduceDiv (reduceSign n d).1 (reduceSign n d).2).1 * (reduceSign n d).2) * d := by ring
        _ = ((reduceSign n d).1 * (reduceDiv (reduceSign n d).1 (reduceSign n d).2).2) * d := by rw [hcross]
        _ = ((reduceSign n d).1 * d) * (reduceDiv (reduceSign n d).1 (reduceSign n d).2).2 := by ring
        _ = (n * (reduceSign n d).2) * (reduceDiv (reduceSign n d).1 (reduceSign n d).2).2 := by rw [reduceSign_cross]
        _ = n * (reduceDiv (reduceSign n d).1 (reduceSign n d).2).2 * (reduceSign n d).2 := by ring
    exact mul_right_cancel₀ hg h1
  by_cases hz : (reduceDiv (reduceSign n d).1 (reduceSign n d).2).1 = 0
  · refine ⟨{ num := (reduceDiv (reduceSign n d).1 (reduceSign n d).2).1, den := 1 },
      by rw [hred, if_pos hz], ?_, ?_⟩
    · refine ⟨by norm_num, ?_, fun _ => rfl⟩
      rw [hz]; simp
    · have hn : n = 0 := reduceSign_num_zero n d (hzero hz)
      rw [hz, hn]; ring
  · exact ⟨{ num := (reduceDiv (reduceSign n d).1 (reduceSign n d).2).1,
             den := (reduceDiv (reduceSign n d).1 (reduceSign n d).2).2 },
      by rw [hred, if_neg hz], ⟨hdpos, hcop, fun h => absurd h hz⟩, hcrossd⟩

/-- Every successful `reduce` result satisfies the representation
invariant. -/
theorem reduce_isReduced {n d : Int} {r : Rational} (h : reduce n d = some r) :
    IsReduced r := by
  by_cases hd : d = 0
  · rw [hd, reduce_den_zero] at h; cases h
  · obtain ⟨r2, he, hinv, _⟩ := reduce_spec n d hd
    rw [he] at h
    cases h
    exact hinv

/-- Every successful `reduce` result denotes the input fraction. -/
theorem reduce_cross {n d : Int} {r : Rational} (h : reduce n d = some r) :
    r.num * d = n * r.den := by
  by_cases hd : d = 0
  · rw [hd, reduce_den_zero] at h; cases h
  · obtain ⟨r2, he, _, hcross⟩ := reduce_spec n d hd
    rw [he] at h
    cases h
    exact hcross

/-- Inserting an absent key appends it. -/
theorem hmInsert_of_find_none (acc : List (String × Obj)) (k : String) (v : Obj)
    (h : hmFind acc k = none) : hmInsert acc k v = acc ++ [(k, v)] := by
  induction acc with
  | nil => rfl
  | cons p rest ih =>
    obtain ⟨k0, v0⟩ := p
    unfold hmFind at h
    unfold hmInsert
    by_cases hk : k0 = k
    · rw [if_pos hk] at h; cases h
    · rw [if_neg hk] at h
      rw [if_neg hk, ih h]
      rfl

/-- Lookup across an append skips a prefix without the key. -/
theorem hmFind_append_of_none (acc l2 : List (String × Obj)) (k : String)
    (h : hmFind acc k = none) : hmFind (acc ++ l2) k = hmFind l2 k := by
  induction acc with
  | nil => rfl
  | cons p rest ih =>
    obtain ⟨k0, v0⟩ := p
    unfold hmFind at h
    by_cases hk : k0 = k
    · rw [if_pos hk] at h; cases h
    · rw [if_neg hk] at h
      show hmFind ((k0, v0) :: (rest ++ l2)) k = hmFind l2 k
      rw [show hmFind ((k0, v0) :: (rest ++ l2)) k =
            if k0 = k then some v0 else hmFind (rest ++ l2) k from rfl]
      rw [if_neg hk]
      exact ih h

/-- The parameter-binding loop of `exec_CALL` builds exactly the
name-to-argument zip when the bound parameter names are distinct and absent
from the accumulator. -/
theorem buildLocals_spec (names : List String) (args : List Obj) :
    ∀ (k i : Nat) (acc : List (String × Obj)),
      i + k ≤ names.length → i + k ≤ args.length →
      ((names.drop i).take k).Nodup →
      (∀ nm ∈ (names.drop i).take k, hmFind acc nm = none) →
      buildLocals names args k i acc =
        some (acc ++ ((names.drop i).take k).zip (args.drop i)) := by
  intro k
  induction k with
  | zero =>
    intro i acc _ _ _ _
    simp [buildLocals]
  | succ k ih =>
    intro i acc hn ha hnodup hfresh
    have hi_n : i < names.length := by omega
    have hi_a : i < args.length := by omega
    have hdropn : names.drop i = names[i] :: names.drop (i + 1) :=
      List.drop_eq_getElem_cons hi_n
    have hdropa : args.drop i = args[i] :: args.drop (i + 1) :=
      List.drop_eq_getElem_cons hi_a
    rw [hdropn, List.take_succ_cons] at hnodup hfresh
    have hmem : names[i] ∈ names[i] :: (names.drop (i + 1)).take k := List.mem_cons_self _ _
    have hfind0 : hmFind acc names[i] = none := hfresh _ hmem
    obtain ⟨hnotmem, hnodup2⟩ := List.nodup_cons.mp hnodup
    rw [buildLocals, List.getElem?_eq_getElem hi_n, List.getElem?_eq_getElem hi_a]
    show buildLocals names args k (i + 1) (hmInsert acc names[i] args[i]) =
      some (acc ++ (List.take (k + 1) (List.drop i names)).zip (List.drop i args))
    rw [hmInsert_of_find_none acc names[i] args[i] hfind0]
    have hfresh2 : ∀ nm ∈ (names.drop (i + 1)).take k,
        hmFind (acc ++ [(names[i], args[i])]) nm = none := by
      intro nm hmem2
      rw [hmFind_append_of_none acc _ nm (hfresh nm (List.mem_cons_of_mem _ hmem2))]
      unfold hmFind
      rw [if_neg ?_]
      · rfl
      · intro hcontra
        exact hnotmem (hcontra ▸ hmem2)
    rw [ih (i + 1) (acc ++ [(names[i], args[i])]) (by omega) (by omega) hnodup2 hfresh2]
    rw [hdropn, hdropa, List.take_succ_cons, List.zip_cons_cons, List.append_assoc]
    rfl

/-! ## Claim theorems -/

/-- C10: for non-negative `a ≥ b`, `BigInt::operator-` is claimed to yield
the decimal difference even when the subtraction borrows across a zero
digit — at `a = 100`, `b = 1` the loop instead underflows the `uint32_t`
digit (`a -= borrow` with `a = 0`), the borrow test `a < b` then fails, and
the stored byte is `255`: the digits are `[9, 255, 1]`, valuing `2659`, not
`99`. -/
theorem C10_bigint_sub_borrow_bug :
    BigInt.value (BigInt.sub (bigOfNat 100) (bigOfNat 1)) = 2659 ∧
    (BigInt.sub (bigOfNat 100) (bigOfNat 1)).digits = [9, 255, 1] ∧
    (2659 : Int) ≠ 100 - 1 := by
  decide

/-- C8: every `Rational` produced by the constructors or by addition,
subtraction, multiplication or division has a strictly positive denominator,
coprime components, and denominator one whenever the numerator is zero. -/
theorem C8_rational_invariant :
    (∀ (n d : Int) (r : Rational), mkRational n d = some r → IsReduced r) ∧
    (∀ n : Int, IsReduced (ratOfInt n)) ∧
    IsReduced ratDefault ∧
    (∀ a b r : Rational, ratAdd a b = some r → IsReduced r) ∧
    (∀ a b r : Rational, ratSub a b = some r → IsReduced r) ∧
    (∀ a b r : Rational, ratMul a b = some r → IsReduced r) ∧
    (∀ a b r : Rational, ratDiv a b = some r → IsReduced r) := by
  have hmk : ∀ (n d : Int) (r : Rational), mkRational n d = some r → IsReduced r :=
    fun n d r h => reduce_isReduced h
  refine ⟨hmk, ?_, ?_, ?_, ?_, ?_, ?_⟩
  · intro n
    exact ⟨by simp [ratOfInt], by simp [ratOfInt], fun _ => rfl⟩
  · decide
  · intro a b r h; exact hmk _ _ _ h
  · intro a b r h; exact hmk _ _ _ h
  · intro a b r h; exact hmk _ _ _ h
  · intro a b r h
    unfold ratDiv at h
    by_cases hz : b.num = 0
    · rw [if_pos hz] at h; cases h
    · rw [if_neg hz] at h; exact hmk _ _ _ h

/-- C8 witness: the reducing constructor at `6 / -4` yields `-3/2`, which
satisfies the invariant. -/
theorem C8_rational_invariant_witness :
    mkRational 6 (-4) = some { num := -3, den := 2 } ∧ IsReduced { num := -3, den := 2 } :=
  ⟨by decide, C8_rational_invariant.1 6 (-4) { num := -3, den := 2 } (by decide)⟩

/-- C5: `OP_DIV` on `Int` operands `a` (below) and `b` (top) errors exactly
when `b = 0`, and otherwise pushes a `Rational` in fully reduced form with
strictly positive denominator denoting exactly `a / b` (cross
multiplication). -/
theorem C5_div_errors_iff_zero (s : VmState) (x y : Int) (rest : List Obj)
    (hstack : s.opStack = .int y :: .int x :: rest) :
    (y = 0 → execDIV s = none) ∧
    (y ≠ 0 → ∃ r, execDIV s = some { s with opStack := .rational r :: rest } ∧
      0 < r.den ∧ Nat.gcd r.num.natAbs r.den.natAbs = 1 ∧ r.num * y = x * r.den) := by
  constructor
  · intro hy
    unfold execDIV
    rw [hstack]
    simp [hy]
  · intro hy
    obtain ⟨r, hr, ⟨hpos, hcop, _⟩, hcross⟩ := reduce_spec x y hy
    refine ⟨r, ?_, hpos, hcop, hcross⟩
    unfold execDIV
    rw [hstack]
    simp only [hy, if_false]
    unfold mkRational
    rw [hr]

/-- C5 witness: dividing `6` by `-4` pushes the reduced `Rational` `-3/2`. -/
theorem C5_div_errors_iff_zero_witness :
    ∃ r, execDIV { opStack := [.int (-4), .int 6], callStack := [], pc := 0,
                   codeListLen := 0, objectAttrs := [] } =
        some { opStack := [.rational r], callStack := [], pc := 0,
               codeListLen := 0, objectAttrs := [] } ∧
      0 < r.den ∧ Nat.gcd r.num.natAbs r.den.natAbs = 1 ∧ r.num * (-4) = 6 * r.den :=
  (C5_div_errors_iff_zero
    { opStack := [.int (-4), .int 6], callStack := [], pc := 0,
      codeListLen := 0, objectAttrs := [] } 6 (-4) [] rfl).2 (by decide)

/-- C6 counterexample: at `a = 1`, `b = 2` the claimed identity
`(a / b) * b + (a % b) == a` evaluates, in the exact `Rational` arithmetic
of the code, to `2 == 1`, which is false: `1/2 * 2 = 1/1`, `1 % 2 = 1`,
`1/1 + 1/1 = 2/1`, and the `Rational` equality test rejects `2/1 == 1/1`. -/
theorem C6_counterexample :
    mkRational 1 2 = some { num := 1, den := 2 } ∧
    ratMul { num := 1, den := 2 } (ratOfInt 2) = some { num := 1, den := 1 } ∧
    bigMod 1 2 = 1 ∧
    ratAdd { num := 1, den := 1 } (ratOfInt (bigMod 1 2)) = some { num := 2, den := 1 } ∧
    ratEqBool { num := 2, den := 1 } (ratOfInt 1) = false := by
  decide

/-- C6 (amended): with `/` the exact Int-to-Rational division of `OP_DIV`,
`(a / b) * b == a` holds for every `b ≠ 0`; the spec identity with the extra
`+ (a % b)` term holds only when `b` divides `a` exactly. -/
theorem C6_div_mul_cancel (a b : Int) (hb : b ≠ 0) :
    ∃ p r, mkRational a b = some p ∧ ratMul p (ratOfInt b) = some r ∧
      ratEqBool r (ratOfInt a) = true := by
  obtain ⟨p, hp, ⟨hppos, _, _⟩, hpcross⟩ := reduce_spec a b hb
  have hden : p.den * (ratOfInt b).den ≠ 0 := by
    simp only [ratOfInt, mul_one]
    omega
  obtain ⟨r, hr, _, hrcross⟩ :=
    reduce_spec (p.num * (ratOfInt b).num) (p.den * (ratOfInt b).den) hden
  refine ⟨p, r, hp, ?_, ?_⟩
  · unfold ratMul mkRational
    exact hr
  · have h1 : r.num * p.den = (a * r.den) * p.den := by
      have h2 : r.num * (p.den * (ratOfInt b).den) =
          p.num * (ratOfInt b).num * r.den := hrcross
      simp only [ratOfInt, mul_one] at h2
      calc r.num * p.den = p.num * b * r.den := by linarith [h2]
        _ = (a * p.den) * r.den := by rw [hpcross]
        _ = (a * r.den) * p.den := by ring
    have h3 : r.num = a * r.den := mul_right_cancel₀ (ne_of_gt hppos) h1
    simp [ratEqBool, ratOfInt, h3]

/-- C6 witness: the amended cancellation at `a = 1`, `b = 2`. -/
theorem C6_div_mul_cancel_witness :
    ∃ p r, mkRational 1 2 = some p ∧ ratMul p (ratOfInt 2) = some r ∧
      ratEqBool r (ratOfInt 1) = true :=
  C6_div_mul_cancel 1 2 (by decide)

/-- C1 counterexample: `OP_ADD` on an `Int` below a `Rational` errors instead
of promoting and pushing the exact sum `3/2`. -/
theorem C1_counterexample :
    execADD { opStack := [.rational { num := 1, den := 2 }, .int 1], callStack := [],
              pc := 0, codeListLen := 0, objectAttrs := [] } = none := rfl

/-- C1 (amended): `Vm::exec_ADD` supports only `Int` operands: executing
`OP_ADD` on a pair where one operand is `Int` and the other `Rational`
raises an error (assert) in either order, rather than promoting — no
Int-to-Rational promotion happens during `OP_ADD`.  (Only the handler's
error paths are asserted here; the pushed `Int`-sum value plays no role.) -/
theorem C1_add_mixed_operands_error (s : VmState) (x : Int) (q : Rational)
    (rest : List Obj) :
    (s.opStack = .rational q :: .int x :: rest → execADD s = none) ∧
    (s.opStack = .int x :: .rational q :: rest → execADD s = none) := by
  constructor
  · intro h
    unfold execADD
    rw [h]
  · intro h
    unfold execADD
    rw [h]

/-- C1 witness: the error at `1 + 1/2` on the operand stack, in both operand
orders. -/
theorem C1_add_mixed_operands_error_witness :
    execADD { opStack := [.rational { num := 1, den := 2 }, .int 1], callStack := [],
              pc := 0, codeListLen := 0, objectAttrs := [] } = none ∧
    execADD { opStack := [.int 1, .rational { num := 1, den := 2 }], callStack := [],
              pc := 0, codeListLen := 0, objectAttrs := [] } = none :=
  ⟨(C1_add_mixed_operands_error
      { opStack := [.rational { num := 1, den := 2 }, .int 1], callStack := [],
        pc := 0, codeListLen := 0, objectAttrs := [] } 1 { num := 1, den := 2 } []).1 rfl,
   (C1_add_mixed_operands_error
      { opStack := [.int 1, .rational { num := 1, den := 2 }], callStack := [],
        pc := 0, codeListLen := 0, objectAttrs := [] } 1 { num := 1, den := 2 } []).2 rfl⟩

/-- C3 counterexample: `exec_CALL` at `pc_ = 5` records `return_to_pc = 5`,
the current pc, not `5 + 1` as claimed. -/
theorem C3_counterexample :
    execCALL { opStack := [.func "f" 0 { code := [], names := [] }, .list []],
               callStack := [{ isWeekScope := false, locals := [], pc := 0, returnToPc := 0,
                               name := "main", codeObject := { code := [], names := [] },
                               names := [] }],
               pc := 5, codeListLen := 0, objectAttrs := [] } =
      some { opStack := [],
             callStack := [{ isWeekScope := false, locals := [], pc := 0, returnToPc := 5,
                             name := "f", codeObject := { code := [], names := [] },
                             names := [] },
                           { isWeekScope := false, locals := [], pc := 0, returnToPc := 0,
                             name := "main", codeObject := { code := [], names := [] },
                             names := [] }],
             pc := 0, codeListLen := 0, objectAttrs := [] } ∧
    (5 : Nat) ≠ 5 + 1 :=
  ⟨rfl, by decide⟩

/-- C3 (amended): `CALL` on a `Function` with an args list errors unless the
list length equals the arity; otherwise (when the first `arity` names exist
and are distinct) it pushes a frame with `code = f.code`, `pc = 0`,
`return_to_pc` equal to the **current** pc (not pc + 1), and locals binding
the first `arity` entries of `f.code.names` to the corresponding list
elements. -/
theorem C3_call_frame (s : VmState) (fname : String) (argc : Nat) (code : CodeObject)
    (args : List Obj) (rest : List Obj)
    (hstack : s.opStack = .func fname argc code :: .list args :: rest)
    (hcs : s.callStack ≠ []) :
    (args.length ≠ argc → execCALL s = none) ∧
    (args.length = argc → argc ≤ code.names.length → (code.names.take argc).Nodup →
      execCALL s = some { s with
        opStack := rest
        callStack := { isWeekScope := false, locals := (code.names.take argc).zip args,
                       pc := 0, returnToPc := s.pc, name := fname, codeObject := code,
                       names := code.names } :: s.callStack
        pc := 0 }) := by
  have hempty : s.callStack.isEmpty = false := List.isEmpty_eq_false.mpr hcs
  constructor
  · intro hne
    unfold execCALL
    rw [hstack]
    simp [hempty, hne]
  · intro heq hle hnodup
    have hfresh : ∀ nm ∈ (code.names.drop 0).take argc, hmFind [] nm = none :=
      fun nm _ => rfl
    have hbl := buildLocals_spec code.names args argc 0 []
      (by simpa using hle) (by omega) (by simpa using hnodup) hfresh
    simp only [List.drop_zero, List.nil_append] at hbl
    unfold execCALL
    rw [hstack]
    simp only [hempty, Bool.false_eq_true, if_false, heq, ne_eq, not_true_eq_false]
    rw [hbl]

/-- C3 witness: calling a one-parameter function binds `x ↦ 7` with
`return_to_pc = 3`, the pc at the call. -/
theorem C3_call_frame_witness :
    execCALL { opStack := [.func "f" 1 { code := [], names := ["x"] }, .list [.int 7]],
               callStack := [{ isWeekScope := false, locals := [], pc := 0, returnToPc := 0,
                               name := "main", codeObject := { code := [], names := [] },
                               names := [] }],
               pc := 3, codeListLen := 0, objectAttrs := [] } =
      some { opStack := [],
             callStack := [{ isWeekScope := false, locals := [("x", .int 7)], pc := 0,
                             returnToPc := 3, name := "f",
                             codeObject := { code := [], names := ["x"] }, names := ["x"] },
                           { isWeekScope := false, locals := [], pc := 0, returnToPc := 0,
                             name := "main", codeObject := { code := [], names := [] },
                             names := [] }],
             pc := 0, codeListLen := 0, objectAttrs := [] } :=
  (C3_call_frame
    { opStack := [.func "f" 1 { code := [], names := ["x"] }, .list [.int 7]],
      callStack := [{ isWeekScope := false, locals := [], pc := 0, returnToPc := 0,
                      name := "main", codeObject := { code := [], names := [] },
                      names := [] }],
      pc := 3, codeListLen := 0, objectAttrs := [] }
    "f" 1 { code := [], names := ["x"] } [.int 7] [] rfl
    (List.cons_ne_nil _ _)).2 rfl (by decide) (by decide)

/-- C4 counterexample: `JUMP_IF_FALSE` on an `Int` condition errors instead
of treating the value as true and continuing. -/
theorem C4_counterexample :
    execJUMP_IF_FALSE { opc := .JUMP_IF_FALSE, opnList := [0], startLineno := 0, endLineno := 0 }
      { opStack := [.int 1], callStack := [], pc := 0, codeListLen := 1,
        objectAttrs := [] } = none := rfl

/-- C4 (amended): `JUMP_IF_FALSE` pops the condition and jumps exactly when
it is `Nil` or `Bool(false)` (given an in-range target); `Bool(true)` falls
through with the pc unchanged; every other value — any `Int`, `String`,
`List`, … — raises an error instead of counting as true. -/
theorem C4_jump_if_false_nil_bool_only (inst : Instruction) (s : VmState) (cond : Obj)
    (rest : List Obj) (target : Nat) (restOpn : List Nat)
    (hstack : s.opStack = cond :: rest) (hopn : inst.opnList = target :: restOpn) :
    ((cond = .nil ∨ cond = .bool false) → target < s.codeListLen →
      execJUMP_IF_FALSE inst s = some { s with opStack := rest, pc := target }) ∧
    (cond = .bool true → execJUMP_IF_FALSE inst s = some { s with opStack := rest }) ∧
    (cond ≠ .nil → (∀ b, cond ≠ .bool b) → execJUMP_IF_FALSE inst s = none) := by
  refine ⟨?_, ?_, ?_⟩
  · rintro (h | h) ht <;> subst h <;>
      (unfold execJUMP_IF_FALSE; rw [hstack, hopn]; simp [ht])
  · intro h
    subst h
    unfold execJUMP_IF_FALSE
    rw [hstack, hopn]
    rfl
  · intro hnil hbool
    unfold execJUMP_IF_FALSE
    rw [hstack, hopn]
    cases cond with
    | nil => exact absurd rfl hnil
    | bool b => exact absurd rfl (hbool b)
    | int v => rfl
    | rational q => rfl
    | str v => rfl
    | list l => rfl
    | func nm argc code => rfl

/-- C4 witness: a `Bool(false)` condition jumps to the in-range target `0`. -/
theorem C4_jump_if_false_nil_bool_only_witness :
    execJUMP_IF_FALSE { opc := .JUMP_IF_FALSE, opnList := [0], startLineno := 0, endLineno := 0 }
      { opStack := [.bool false], callStack := [], pc := 7, codeListLen := 1,
        objectAttrs := [] } =
      some { opStack := [], callStack := [], pc := 0, codeListLen := 1, objectAttrs := [] } :=
  (C4_jump_if_false_nil_bool_only
    { opc := .JUMP_IF_FALSE, opnList := [0], startLineno := 0, endLineno := 0 }
    { opStack := [.bool false], callStack := [], pc := 7, codeListLen := 1, objectAttrs := [] }
    (.bool false) [] 0 [] rfl rfl).1 (Or.inr rfl) (by decide)

/-- C9: `SET_ATTR` stores through `obj->attrs`, but models.hpp declares
`attrs` as a **static** member of `Object`, one map shared by every object:
after storing `"x" ↦ "v"` through object `Int 1`, a `GET_ATTR "x"` executed
on the unrelated object `Int 7` observes the value — the attribute mapping
of objects other than `obj` does not stay unchanged. -/
theorem C9_set_attr_shared_static_map :
    execSET_ATTR { opc := .SET_ATTR, opnList := [0], startLineno := 0, endLineno := 0 }
      { opStack := [.str "v", .int 1],
        callStack := [{ isWeekScope := false, locals := [], pc := 0, returnToPc := 0,
                        name := "main", codeObject := { code := [], names := [] },
                        names := ["x"] }],
        pc := 0, codeListLen := 0, objectAttrs := [] } =
      some { opStack := [],
             callStack := [{ isWeekScope := false, locals := [], pc := 0, returnToPc := 0,
                             name := "main", codeObject := { code := [], names := [] },
                             names := ["x"] }],
             pc := 0, codeListLen := 0, objectAttrs := [("x", .str "v")] } ∧
    execGET_ATTR { opc := .GET_ATTR, opnList := [0], startLineno := 0, endLineno := 0 }
      { opStack := [.int 7],
        callStack := [{ isWeekScope := false, locals := [], pc := 0, returnToPc := 0,
                        name := "main", codeObject := { code := [], names := [] },
                        names := ["x"] }],
        pc := 0, codeListLen := 0, objectAttrs := [("x", .str "v")] } =
      some { opStack := [.str "v"],
             callStack := [{ isWeekScope := false, locals := [], pc := 0, returnToPc := 0,
                             name := "main", codeObject := { code := [], names := [] },
                             names := ["x"] }],
             pc := 0, codeListLen := 0, objectAttrs := [("x", .str "v")] } :=
  ⟨rfl, rfl⟩

/-- C2: `gen_fn_call` on `f(1)` emits `LOAD_CONST 0; LOAD_VAR 0; CALL 1` —
argument, callee, then `CALL` carrying the argument count as its operand,
with **no** `MAKE_LIST` between the arguments and the callee; the repo's own
`exec_CALL` then errors on such code because the slot under the callee is
not a `List`. -/
theorem C2_call_without_make_list :
    (genFnCall (.callE (.identE "f" 1 1) [.numberE "1" 1 1] 1 1) initGenState).map
        (fun st => st.currCodeList.map (fun i => (i.opc, i.opnList))) =
      some [(.LOAD_CONST, [0]), (.LOAD_VAR, [0]), (.CALL, [1])] ∧
    execCALL { opStack := [.func "f" 1 { code := [], names := ["x"] }, .int 1],
               callStack := [{ isWeekScope := false, locals := [], pc := 0, returnToPc := 0,
                               name := "main", codeObject := { code := [], names := [] },
                               names := [] }],
               pc := 0, codeListLen := 0, objectAttrs := [] } = none := by
  constructor
  · simp [genFnCall, genExprList, genExpr, genLiteral, emit, emitLineno,
      getOrAddName, findName, getOrAddConstFresh, initGenState]
  · rfl

/-- C7: generating `while c { continue }` from a fresh state places the loop
entry (condition start) at pc `0`, yet the `JUMP` emitted for `continue`
targets pc `2` — the first body instruction, which is `block_stack.top()`
after `gen_while` pushed the entry and then the body start — not the loop
entry as claimed. -/
theorem C7_continue_jumps_to_body_start :
    (genStmts [.whileS (.identE "c" 1 1) (.mk [.continueS 2 2] 1 3) 1 3] initGenState).map
        (fun st => st.currCodeList.map (fun i => (i.opc, i.opnList))) =
      some [(.LOAD_VAR, [0]), (.JUMP_IF_FALSE, [4]), (.JUMP, [2]), (.JUMP, [0])] ∧
    (2 : Nat) ≠ 0 := by
  constructor
  · simp [genStmts, genWhile, genBlock, genExpr, genExprList, genFnCall, emit, emitLineno,
      getOrAddName, findName, initGenState, patchTarget, Expr.startLn, Expr.endLn,
      BlockS.endLn]
  · decide

end KizSpec
